import Mathlib

/-!
Verification of the gocache cache engine and HTTP handlers.

Shallow embedding of `pkg/cache/cache.go` and `pkg/http/handlers/handlers.go`
from the Lucascluz/gocache repository.

Modelling conventions:

* Go `time.Time` is modelled as `Int` (an instant on a discrete time line);
  `*time.Time` becomes `Option Int`.  `t1.Before(t2)` is `t1 < t2` and
  `t1.After(t2)` is `t2 < t1`, matching Go's strict comparisons.
* Go `time.Duration` is an `Int` (nanoseconds).
* The store `map[string]*CacheItem` is modelled as an association list
  `List (String × CacheItem α)`; map assignment replaces the binding for a
  key, so every state the program can construct has unique keys.
* Each cache operation is a pure function from the store (and the current
  instant `now`, standing for the `time.Now()` readings made during the
  call) to its result paired with the successor store.  The mutex only
  serialises calls, so a sequential state-passing semantics is the faithful
  meaning of each operation; all `time.Now()` readings inside one call are
  modelled as the single instant `now`.
* The stored value type `any` is a type parameter `α`; for the HTTP layer it
  is instantiated with `GoValue`, a sum covering the dynamic-type cases that
  the handlers' `toString` conversion distinguishes.
-/

namespace GoCache

/-- Embeds `CacheItem` from cache.go: a value with an optional expiration
instant. -/
structure CacheItem (α : Type) where
  value : α
  expiresAt : Option Int
deriving Repr, DecidableEq

/-- Embeds the store component of `Cache`: Go's `map[string]*CacheItem` as an
association list with unique keys. -/
abbrev Store (α : Type) := List (String × CacheItem α)

variable {α : Type}

/-- Embeds `item, exists := c.items[key]`: map lookup. -/
def lookupKey (s : Store α) (k : String) : Option (CacheItem α) :=
  (s.find? (fun p => p.1 == k)).map (·.2)

/-- Embeds `delete(c.items, key)`: map deletion. -/
def eraseKey (s : Store α) (k : String) : Store α :=
  s.filter (fun p => !(p.1 == k))

/-- Embeds `c.items[key] = item`: map assignment (replaces any existing
binding for the key). -/
def insertKey (s : Store α) (k : String) (it : CacheItem α) : Store α :=
  eraseKey s k ++ [(k, it)]

/-- Embeds `item.ExpiresAt == nil || now.Before(*item.ExpiresAt)`: the
shared-lock liveness check in `Get`/`Exists`. -/
def liveCheck (expiresAt : Option Int) (now : Int) : Bool :=
  match expiresAt with
  | none => true
  | some e => now < e

/-- Embeds `item.ExpiresAt != nil && now.After(*item.ExpiresAt)`: the strict
"expiration already past" check used on every delete/skip path
(`Get`/`Exists` recheck, `Keys`, `cleanup`). -/
def pastCheck (expiresAt : Option Int) (now : Int) : Bool :=
  match expiresAt with
  | none => false
  | some e => e < now

/-- Embeds `Cache.SetWithTTL` from cache.go: stores `expiresAt = now + ttl`
when `ttl > 0`, and no expiration otherwise. -/
def SetWithTTL (s : Store α) (k : String) (v : α) (ttl now : Int) : Store α :=
  let item : CacheItem α :=
    if ttl > 0 then { value := v, expiresAt := some (now + ttl) }
    else { value := v, expiresAt := none }
  insertKey s k item

/-- Embeds `Cache.Set` from cache.go: `SetWithTTL` with `ttl = 0`. -/
def Set (s : Store α) (k : String) (v : α) (now : Int) : Store α :=
  SetWithTTL s k v 0 now

/-- Embeds `Cache.Get` from cache.go.  Returns `(found value?, successor
store)`; `none` is the `(nil, false)` outcome.  The shared-lock fast path,
the upgrade to the write lock and the recheck are embedded as in the source;
in the sequential model the second lookup revisits the same store. -/
def Get (s : Store α) (k : String) (now : Int) : Option α × Store α :=
  match lookupKey s k with
  | none => (none, s)
  | some item =>
    if liveCheck item.expiresAt now then (some item.value, s)
    else
      match lookupKey s k with
      | none => (none, s)
      | some item2 =>
        if pastCheck item2.expiresAt now then (none, eraseKey s k)
        else (some item2.value, s)

/-- Embeds `Cache.Delete` from cache.go: removes the key if present and
reports whether it was present. -/
def Delete (s : Store α) (k : String) : Bool × Store α :=
  match lookupKey s k with
  | none => (false, s)
  | some _ => (true, eraseKey s k)

/-- Embeds `Cache.Exists` from cache.go (named `existsKey` here because
`Exists` is the name of Lean's existential quantifier).  Same structure as
`Get` with the value discarded. -/
def existsKey (s : Store α) (k : String) (now : Int) : Bool × Store α :=
  match lookupKey s k with
  | none => (false, s)
  | some item =>
    if liveCheck item.expiresAt now then (true, s)
    else
      match lookupKey s k with
      | none => (false, s)
      | some item2 =>
        if pastCheck item2.expiresAt now then (false, eraseKey s k)
        else (true, s)

/-- Embeds `Cache.Keys` from cache.go: collects the keys of all entries that
are not strictly past their expiration; the loop never writes to `c.items`,
so the successor store is the input store. -/
def Keys (s : Store α) (now : Int) : List String × Store α :=
  ((s.filter (fun p => !pastCheck p.2.expiresAt now)).map (·.1), s)

/-- Embeds `Cache.Flush` from cache.go: returns the entry count and replaces
the map with a fresh empty one. -/
def Flush (s : Store α) : Nat × Store α :=
  (s.length, [])

/-- Embeds `Cache.Size` from cache.go: `len(c.items)`. -/
def Size (s : Store α) : Nat :=
  s.length

/-- Embeds `Cache.cleanup` from cache.go: one background sweep, deleting
every entry whose expiration is set and strictly in the past at sweep
time. -/
def cleanup (s : Store α) (now : Int) : Store α :=
  s.filter (fun p => !pastCheck p.2.expiresAt now)

/-- Models the dynamic type of a stored `any` value as far as the handlers'
`toString` type switch distinguishes it: a Go `string`, a Go `[]byte`
(represented by the characters of its textual decoding, so Go's `string(t)`
conversion is `String.mk`), or any other type, represented by its
`fmt.Sprintf` percent-v rendering, whose exact format the handler merely
passes along. -/
inductive GoValue where
  | str (s : String)
  | bytes (chars : List Char)
  | other (rendered : String)
deriving Repr, DecidableEq

/-- Embeds `toString` from handlers.go: strings pass through, byte slices
are decoded as text, anything else uses its default rendering. -/
def toString : GoValue → String
  | GoValue.str t => t
  | GoValue.bytes cs => String.mk cs
  | GoValue.other r => r

/-- Models the character class trimmed by Go `strings.TrimSpace` on the
values considered here (the Latin-1 part of `unicode.IsSpace`): space, tab,
newline, vertical tab, form feed, carriage return, next-line and no-break
space. -/
def goIsSpace (c : Char) : Bool :=
  c == ' ' || c == '\t' || c == '\n' || c == Char.ofNat 11 ||
    c == Char.ofNat 12 || c == '\r' || c == Char.ofNat 133 || c == Char.ofNat 160

/-- Embeds Go `strings.TrimSpace`: drops leading and trailing white
space. -/
def trimSpace (s : String) : String :=
  String.mk (((s.data.dropWhile goIsSpace).reverse.dropWhile goIsSpace).reverse)

/-- Models an HTTP response as the observable the handlers produce: status
code and body.  `http.Error` writes its message followed by a newline. -/
structure HttpResponse where
  status : Nat
  body : String
deriving Repr, DecidableEq

/-- Embeds the `GET` handler from handlers.go.  `headerKey` and `queryKey`
are the `key` request header and the `key` query parameter; the call
observes the store at instant `now` and yields the response paired with the
successor store. -/
def GET (s : Store GoValue) (headerKey queryKey : String) (now : Int) :
    HttpResponse × Store GoValue :=
  let key := if headerKey = "" then queryKey else headerKey
  if key = "" then ({ status := 400, body := "missing key\n" }, s)
  else
    match Get s key now with
    | (none, s2) => ({ status := 404, body := "not found\n" }, s2)
    | (some v, s2) => ({ status := 200, body := trimSpace (toString v) }, s2)

/-- Accumulates the decimal digits of `cs` onto `acc`; `none` if any
character is not an ASCII digit. -/
def decDigits (cs : List Char) (acc : Nat) : Option Nat :=
  match cs with
  | [] => some acc
  | c :: rest =>
    if '0' ≤ c ∧ c ≤ '9' then decDigits rest (acc * 10 + (c.toNat - '0'.toNat))
    else none

/-- Embeds Go `strconv.ParseInt(s, 10, 64)`: an optional sign, one or more
decimal digits, and a result within the int64 range; `none` models a non-nil
error (syntax or range). -/
def parseInt64 (s : String) : Option Int :=
  let signSplit : Bool × List Char :=
    match s.data with
    | '-' :: rest => (true, rest)
    | '+' :: rest => (false, rest)
    | cs => (false, cs)
  if signSplit.2.isEmpty then none
  else
    match decDigits signSplit.2 0 with
    | none => none
    | some n =>
      let v : Int := if signSplit.1 then -(n : Int) else (n : Int)
      if v < -(2 ^ 63) ∨ 2 ^ 63 - 1 < v then none else some v

/-- Models two's-complement wraparound into the int64 range, for Go
arithmetic on `int64`-backed types. -/
def wrap64 (x : Int) : Int :=
  (x + 2 ^ 63) % 2 ^ 64 - 2 ^ 63

/-- Embeds `time.Duration(secs) * time.Second` from the SET handler:
seconds to nanoseconds with int64 wraparound. -/
def durSeconds (secs : Int) : Int :=
  wrap64 (secs * 1000000000)

/-- Embeds the `SET` handler from handlers.go, in the case where the body
was read successfully: `body` is the bytes read, stored as `string(body)`;
`ttlHeader` is the `ttl-seconds` request header ("" when absent). -/
def SET (s : Store GoValue) (headerKey queryKey body ttlHeader : String)
    (now : Int) : HttpResponse × Store GoValue :=
  let key := if headerKey = "" then queryKey else headerKey
  if key = "" then ({ status := 400, body := "missing key\n" }, s)
  else
    match (if ttlHeader = "" then none else parseInt64 ttlHeader) with
    | some secs =>
      if secs > 0 then
        ({ status := 204, body := "" },
          SetWithTTL s key (GoValue.str body) (durSeconds secs) now)
      else ({ status := 204, body := "" }, Set s key (GoValue.str body) now)
    | none => ({ status := 204, body := "" }, Set s key (GoValue.str body) now)

/-- Concrete store for the C1 boundary counterexample: one entry expiring at
instant 5. -/
def storeC1 : Store Nat :=
  [("k", { value := 0, expiresAt := some 5 })]

/-- Concrete store for the C9 counterexample: the value is a string with
surrounding white space. -/
def storeC9 : Store GoValue :=
  Set [] "k" (GoValue.str " hello ") 0

/-- Concrete store for the C9 witness. -/
def storeC9w : Store GoValue :=
  Set [] "k" (GoValue.str "x") 0

/-! Basic lemmas about the store operations. -/

theorem find?_eraseKey (s : Store α) (k : String) :
    (eraseKey s k).find? (fun p => p.1 == k) = none := by
  rw [List.find?_eq_none]
  intro x hx
  have hmem := List.of_mem_filter hx
  simpa using hmem

theorem lookupKey_eraseKey (s : Store α) (k : String) :
    lookupKey (eraseKey s k) k = none := by
  unfold lookupKey
  rw [find?_eraseKey]
  rfl

theorem find?_append_none {β : Type} {p : β → Bool} {l₁ l₂ : List β}
    (h : l₁.find? p = none) : (l₁ ++ l₂).find? p = l₂.find? p := by
  induction l₁ with
  | nil => simp
  | cons hd tl ih =>
    rw [List.cons_append, List.find?]
    rw [List.find?] at h
    cases hph : p hd with
    | true => simp [hph] at h
    | false =>
      simp only [hph] at h ⊢
      exact ih h

theorem lookupKey_insertKey (s : Store α) (k : String) (it : CacheItem α) :
    lookupKey (insertKey s k it) k = some it := by
  unfold lookupKey insertKey
  rw [find?_append_none (find?_eraseKey s k)]
  simp [List.find?]

theorem lookupKey_set (s : Store α) (k : String) (v : α) (now : Int) :
    lookupKey (Set s k v now) k = some { value := v, expiresAt := none } := by
  unfold Set SetWithTTL
  simpa using lookupKey_insertKey s k _

theorem mem_of_lookupKey {s : Store α} {k : String} {it : CacheItem α}
    (h : lookupKey s k = some it) : (k, it) ∈ s := by
  unfold lookupKey at h
  cases hf : s.find? (fun p => p.1 == k) with
  | none => rw [hf] at h; cases h
  | some pr =>
    rw [hf] at h
    have hmem := List.mem_of_find?_eq_some hf
    have hp := List.find?_some hf
    simp at hp h
    have hpr : pr = (k, it) := by
      obtain ⟨a, b⟩ := pr
      simp at hp h
      exact Prod.ext hp h
    rwa [hpr] at hmem

theorem nodup_keys_unique {s : Store α} (hnd : (s.map Prod.fst).Nodup)
    {k : String} {a b : CacheItem α} (ha : (k, a) ∈ s) (hb : (k, b) ∈ s) :
    a = b := by
  induction s with
  | nil => cases ha
  | cons hd tl ih =>
    rw [List.map_cons, List.nodup_cons] at hnd
    rw [List.mem_cons] at ha hb
    cases ha with
    | inl ha1 =>
      cases hb with
      | inl hb1 => exact (Prod.ext_iff.mp (ha1.trans hb1.symm)).2
      | inr hb1 =>
        exfalso
        apply hnd.1
        have hk1 : hd.1 = k := by rw [← ha1]
        rw [hk1]
        exact List.mem_map_of_mem Prod.fst hb1
    | inr ha1 =>
      cases hb with
      | inl hb1 =>
        exfalso
        apply hnd.1
        have hk1 : hd.1 = k := by rw [← hb1]
        rw [hk1]
        exact List.mem_map_of_mem Prod.fst ha1
      | inr hb1 => exact ih hnd.2 ha1 hb1

theorem mem_keys_iff {s : Store α} {k : String} {it : CacheItem α}
    (hnd : (s.map Prod.fst).Nodup) (h : lookupKey s k = some it) (now : Int) :
    k ∈ (Keys s now).1 ↔ pastCheck it.expiresAt now = false := by
  unfold Keys
  simp only [List.mem_map, List.mem_filter]
  constructor
  · rintro ⟨pr, ⟨hmem, hkeep⟩, hfst⟩
    have hkit : (k, it) ∈ s := mem_of_lookupKey h
    have hmem2 : (k, pr.2) ∈ s := by rw [← hfst]; exact hmem
    have heq : pr.2 = it := nodup_keys_unique hnd hmem2 hkit
    rw [← heq]
    simpa using hkeep
  · intro hpast
    exact ⟨(k, it), ⟨mem_of_lookupKey h, by simp [hpast]⟩, rfl⟩

/-! Characterisation of `Get` and `existsKey` on a key the store binds. -/

theorem get_expired {s : Store α} {k : String} {v : α} {e now : Int}
    (h : lookupKey s k = some { value := v, expiresAt := some e })
    (hp : e < now) : Get s k now = (none, eraseKey s k) := by
  have hnl : ¬ now < e := lt_asymm hp
  unfold Get
  rw [h]
  simp [liveCheck, pastCheck, hnl, hp]

theorem get_not_expired {s : Store α} {k : String} {v : α} {ex : Option Int}
    {now : Int} (h : lookupKey s k = some { value := v, expiresAt := ex })
    (hp : pastCheck ex now = false) : Get s k now = (some v, s) := by
  unfold Get
  rw [h]
  by_cases hl : liveCheck ex now = true
  · simp [hl]
  · simp [hl, hp]

theorem exists_expired {s : Store α} {k : String} {v : α} {e now : Int}
    (h : lookupKey s k = some { value := v, expiresAt := some e })
    (hp : e < now) : existsKey s k now = (false, eraseKey s k) := by
  have hnl : ¬ now < e := lt_asymm hp
  unfold existsKey
  rw [h]
  simp [liveCheck, pastCheck, hnl, hp]

theorem exists_not_expired {s : Store α} {k : String} {v : α} {ex : Option Int}
    {now : Int} (h : lookupKey s k = some { value := v, expiresAt := ex })
    (hp : pastCheck ex now = false) : existsKey s k now = (true, s) := by
  unfold existsKey
  rw [h]
  by_cases hl : liveCheck ex now = true
  · simp [hl]
  · simp [hl, hp]

theorem get_of_lookup_none {s : Store α} {k : String}
    (h : lookupKey s k = none) (now : Int) : Get s k now = (none, s) := by
  unfold Get
  rw [h]

theorem delete_of_lookup_none {s : Store α} {k : String}
    (h : lookupKey s k = none) : Delete s k = (false, s) := by
  unfold Delete
  rw [h]

theorem delete_of_lookup_some {s : Store α} {k : String} {it : CacheItem α}
    (h : lookupKey s k = some it) : Delete s k = (true, eraseKey s k) := by
  unfold Delete
  rw [h]

theorem pastCheck_false_iff (ex : Option Int) (now : Int) :
    pastCheck ex now = false ↔ ¬ ∃ e, ex = some e ∧ e < now := by
  cases ex <;> simp [pastCheck]

/-! Claim C1. -/

/-- Claim C1, counterexample.  The claim says an entry is expired already at
the instant `now = expiresAt` and that `Get` then reports not-found,
`Exists` false, and `Keys` omits the key.  On the concrete store with one
entry expiring at instant 5, at `now = 5` the code does the opposite: the
delete/skip checks use the strict `now.After(*item.ExpiresAt)`, so `Get`
returns the value, `Exists` returns true, and `Keys` still lists the key. -/
theorem boundary_instant_counterexample :
    lookupKey storeC1 "k" = some { value := 0, expiresAt := some 5 } ∧
    (Get storeC1 "k" 5).1 = some 0 ∧
    (existsKey storeC1 "k" 5).1 = true ∧
    (Keys storeC1 5).1 = ["k"] := by
  refine ⟨rfl, ?_, ?_, ?_⟩ <;> decide

/-- Claim C1, amended: an entry whose `expiresAt` is set is treated as
absent by the read path exactly when the current time is strictly AFTER
`expiresAt` (at `now = expiresAt` it is still visible): `Get` returns
not-found and `Exists` returns false iff `expiresAt < now`, `Keys` lists the
key iff `¬ expiresAt < now`, and when `expiresAt < now` both `Get` and
`Exists` lazily delete the still-present entry. -/
theorem expired_entries_absent (s : Store α) (k : String) (v : α)
    (e now : Int) (hnd : (s.map Prod.fst).Nodup)
    (h : lookupKey s k = some { value := v, expiresAt := some e }) :
    ((Get s k now).1 = none ↔ e < now) ∧
    ((existsKey s k now).1 = false ↔ e < now) ∧
    (k ∈ (Keys s now).1 ↔ ¬ e < now) ∧
    (e < now →
      (Get s k now).2 = eraseKey s k ∧
      (existsKey s k now).2 = eraseKey s k) := by
  have hkeys := mem_keys_iff hnd h now
  by_cases hp : e < now
  · rw [get_expired h hp, exists_expired h hp]
    refine ⟨by simp [hp], by simp [hp], ?_, fun _ => ⟨rfl, rfl⟩⟩
    rw [hkeys]
    simp [pastCheck, hp]
  · have hp2 : pastCheck (some e) now = false := by simp [pastCheck, hp]
    rw [get_not_expired h hp2, exists_not_expired h hp2]
    refine ⟨by simp [hp], by simp [hp], ?_, fun hc => absurd hc hp⟩
    rw [hkeys]
    simp [pastCheck, hp]

/-- Witness for the amended C1 at a concrete input: entry expiring at 5,
read at the strictly later instant 9. -/
theorem expired_entries_absent_witness :
    (storeC1.map Prod.fst).Nodup ∧
    (((Get storeC1 "k" 9).1 = none ↔ (5 : Int) < 9) ∧
     ((existsKey storeC1 "k" 9).1 = false ↔ (5 : Int) < 9) ∧
     ("k" ∈ (Keys storeC1 9).1 ↔ ¬ (5 : Int) < 9) ∧
     ((5 : Int) < 9 →
       (Get storeC1 "k" 9).2 = eraseKey storeC1 "k" ∧
       (existsKey storeC1 "k" 9).2 = eraseKey storeC1 "k")) :=
  ⟨by decide, expired_entries_absent storeC1 "k" 0 5 9 (by decide) rfl⟩

/-! Claim C2. -/

/-- Claim C2: for every key `k` and value `v`, immediately after `Set(k, v)`
(and with no intervening write, modelled by running `Get` directly on the
post-`Set` store) `Get(k)` returns `(v, true)`, and it does so at every
later instant `t` because the stored entry carries no expiration timestamp;
the read leaves the store unchanged. -/
theorem set_then_get_found (s : Store α) (k : String) (v : α) (now t : Int) :
    (Get (Set s k v now) k t).1 = some v ∧
    (Get (Set s k v now) k t).2 = Set s k v now := by
  unfold Get
  rw [lookupKey_set]
  simp [liveCheck]

/-! Claim C3. -/

/-- Claim C3: for every key, value and duration `ttl ≤ 0`,
`SetWithTTL(k, v, ttl)` produces exactly the store `Set(k, v)` produces: the
value is stored with no expiration timestamp recorded. -/
theorem setWithTTL_nonpos_eq_set (s : Store α) (k : String) (v : α)
    (ttl now : Int) (h : ttl ≤ 0) :
    SetWithTTL s k v ttl now = Set s k v now := by
  unfold Set SetWithTTL
  have h1 : ¬ ttl > 0 := not_lt.mpr h
  simp [h1]

/-- Witness for C3 at a concrete input: `ttl = -1`. -/
theorem setWithTTL_nonpos_eq_set_witness :
    (-1 : Int) ≤ 0 ∧
    SetWithTTL ([] : Store Nat) "a" 7 (-1) 5 = Set ([] : Store Nat) "a" 7 5 :=
  ⟨by decide, setWithTTL_nonpos_eq_set [] "a" 7 (-1) 5 (by decide)⟩

/-! Claim C4. -/

/-- Claim C4: for every key and store state, `Exists(k)` returns the boolean
that is the found component of `Get(k)` on that state, and leaves the store
in the same successor state as `Get(k)` would, including the lazy deletion
of a still-expired entry on the exclusive recheck. -/
theorem exists_refines_get (s : Store α) (k : String) (now : Int) :
    (existsKey s k now).1 = (Get s k now).1.isSome ∧
    (existsKey s k now).2 = (Get s k now).2 := by
  cases hlk : lookupKey s k with
  | none =>
    rw [get_of_lookup_none hlk]
    unfold existsKey
    rw [hlk]
    exact ⟨rfl, rfl⟩
  | some it =>
    obtain ⟨v, ex⟩ := it
    by_cases hp : pastCheck ex now = true
    · cases ex with
      | none => simp [pastCheck] at hp
      | some e =>
        simp only [pastCheck, decide_eq_true_eq] at hp
        rw [get_expired hlk hp, exists_expired hlk hp]
        exact ⟨rfl, rfl⟩
    · have hp2 : pastCheck ex now = false := by
        cases hb : pastCheck ex now
        · rfl
        · exact absurd hb hp
      rw [get_not_expired hlk hp2, exists_not_expired hlk hp2]
      exact ⟨rfl, rfl⟩

/-! Claim C5. -/

/-- Claim C5: `Keys()` does not mutate the store: the successor store is the
input store entry for entry (expired entries are skipped, not deleted),
`Size()` is unaffected by calling `Keys()`, and two successive `Keys()`
calls with no intervening writes return the same list of keys. -/
theorem keys_pure (s : Store α) (now : Int) :
    (Keys s now).2 = s ∧
    Size (Keys s now).2 = Size s ∧
    (Keys (Keys s now).2 now).1 = (Keys s now).1 :=
  ⟨rfl, rfl, rfl⟩

/-! Claim C6. -/

/-- Claim C6: `Flush()` returns exactly the number of entries present
immediately before the call — `Size` counts every physically present entry,
expired or not — and leaves the store empty, so `Size()` returns 0
immediately afterwards. -/
theorem flush_spec (s : Store α) :
    (Flush s).1 = Size s ∧
    (Flush s).2 = [] ∧
    Size (Flush s).2 = 0 :=
  ⟨rfl, rfl, rfl⟩

/-! Claim C7. -/

/-- Claim C7: `Delete(k)` removes `k` unconditionally — afterwards no lookup
finds it, regardless of the entry's expiration state — and returns true iff
`k` was present immediately beforehand; hence the first `Delete` after an
insertion returns true, a repeated `Delete(k)` with no intervening write
returns false, and `Get(k)` afterwards returns not-found. -/
theorem delete_spec (s : Store α) (k : String) (v : α) (now t : Int) :
    (Delete s k).1 = (lookupKey s k).isSome ∧
    lookupKey (Delete s k).2 k = none ∧
    (Delete (Set s k v now) k).1 = true ∧
    (Delete ((Delete s k).2) k).1 = false ∧
    (Get ((Delete s k).2) k t).1 = none := by
  have h2 : lookupKey (Delete s k).2 k = none := by
    cases hlk : lookupKey s k with
    | none => rw [delete_of_lookup_none hlk]; exact hlk
    | some it => rw [delete_of_lookup_some hlk]; exact lookupKey_eraseKey s k
  refine ⟨?_, h2, ?_, ?_, ?_⟩
  · cases hlk : lookupKey s k with
    | none => rw [delete_of_lookup_none hlk]; rfl
    | some it => rw [delete_of_lookup_some hlk]; rfl
  · rw [delete_of_lookup_some (lookupKey_set s k v now)]
  · rw [delete_of_lookup_none h2]
  · rw [get_of_lookup_none h2 t]

/-! Claim C8. -/

/-- Claim C8: one execution of the background sweep retains exactly the
entries that are not past their expiration: an entry survives `cleanup` iff
it was present and it is not the case that its `expiresAt` is set and
strictly in the past at sweep time; surviving entries are unchanged. -/
theorem cleanup_spec (s : Store α) (now : Int) (k : String)
    (it : CacheItem α) :
    (k, it) ∈ cleanup s now ↔
      (k, it) ∈ s ∧ ¬ ∃ e, it.expiresAt = some e ∧ e < now := by
  unfold cleanup
  rw [List.mem_filter]
  constructor
  · rintro ⟨hm, hk⟩
    refine ⟨hm, ?_⟩
    rw [← pastCheck_false_iff]
    simpa using hk
  · rintro ⟨hm, hk⟩
    refine ⟨hm, ?_⟩
    simp [(pastCheck_false_iff _ _).mpr hk]

/-! Claim C9. -/

/-- Claim C9, counterexample.  The claim says the 200 body is the string
form of the stored value with string values passing through unchanged.  For
the stored string value " hello " the handler responds 200 with body
"hello": it applies `strings.TrimSpace` to the rendering, so the string does
not pass through unchanged. -/
theorem get_handler_trims_counterexample :
    (GET storeC9 "k" "" 0).1 = { status := 200, body := "hello" } ∧
    toString (GoValue.str " hello ") = " hello " ∧
    ("hello" : String) ≠ " hello " := by
  refine ⟨?_, rfl, by decide⟩
  decide

/-- Claim C9, amended: for every stored value found by the HTTP GET handler,
the 200 response body is the string form of the stored value with leading
and trailing white space trimmed, where a string value passes through
otherwise unchanged, a raw byte sequence is decoded as text, and any other
stored type is rendered via its generic default textual representation. -/
theorem get_handler_found (s : Store GoValue) (k : String) (v : GoValue)
    (now : Int) (hk : ¬ k = "") (h : (Get s k now).1 = some v) :
    (GET s k "" now).1 = { status := 200, body := trimSpace (toString v) } ∧
    (GET s k "" now).2 = (Get s k now).2 := by
  have hG : Get s k now = (some v, (Get s k now).2) := by
    rw [← h]
  unfold GET
  simp only [if_neg hk]
  rw [hG]
  exact ⟨rfl, rfl⟩

/-- Witness for the amended C9 at a concrete input: the stored string
"x". -/
theorem get_handler_found_witness :
    ¬ ("k" : String) = "" ∧
    (Get storeC9w "k" 0).1 = some (GoValue.str "x") ∧
    ((GET storeC9w "k" "" 0).1 =
        { status := 200, body := trimSpace (toString (GoValue.str "x")) } ∧
      (GET storeC9w "k" "" 0).2 = (Get storeC9w "k" 0).2) :=
  ⟨by decide, by decide,
    get_handler_found storeC9w "k" (GoValue.str "x") 0 (by decide) (by decide)⟩

/-! Claim C10. -/

/-- Claim C10: for every HTTP SET request carrying a key and a readable
body, if the `ttl-seconds` header is present but does not parse as an
integer, or parses to a non-positive value, the handler stores the body via
a plain `Set` — so the entry records no expiration — and responds 204 No
Content, reporting no error. -/
theorem set_handler_bad_ttl (s : Store GoValue) (k body ttlHeader : String)
    (now : Int) (hk : ¬ k = "") (hh : ¬ ttlHeader = "")
    (hbad : ∀ secs : Int, parseInt64 ttlHeader = some secs → secs ≤ 0) :
    SET s k "" body ttlHeader now =
      ({ status := 204, body := "" }, Set s k (GoValue.str body) now) ∧
    lookupKey (SET s k "" body ttlHeader now).2 k =
      some { value := GoValue.str body, expiresAt := none } := by
  have hmain : SET s k "" body ttlHeader now =
      ({ status := 204, body := "" }, Set s k (GoValue.str body) now) := by
    unfold SET
    simp only [if_neg hk, if_neg hh]
    cases hp : parseInt64 ttlHeader with
    | none => rfl
    | some secs =>
      have hle := hbad secs hp
      simp [not_lt.mpr hle]
  refine ⟨hmain, ?_⟩
  rw [hmain]
  exact lookupKey_set s k (GoValue.str body) now

/-- Witness for C10 at a concrete input: `ttl-seconds` header "abc", which
`parseInt64` rejects. -/
theorem set_handler_bad_ttl_witness :
    ¬ ("k" : String) = "" ∧
    ¬ ("abc" : String) = "" ∧
    parseInt64 "abc" = none ∧
    (SET ([] : Store GoValue) "k" "" "v" "abc" 0 =
        ({ status := 204, body := "" },
          Set ([] : Store GoValue) "k" (GoValue.str "v") 0) ∧
      lookupKey (SET ([] : Store GoValue) "k" "" "v" "abc" 0).2 "k" =
        some { value := GoValue.str "v", expiresAt := none }) :=
  ⟨by decide, by decide, by decide,
    set_handler_bad_ttl [] "k" "v" "abc" 0 (by decide) (by decide)
      (fun secs hp => by
        rw [(by decide : parseInt64 "abc" = (none : Option Int))] at hp
        cases hp)⟩

end GoCache
